import Mathlib

/-!
Verification of the Finviz feature-collection pipeline
(`scripts/collect_finviz_features.py`).

The development shallowly embeds the normalization core of the script:

* the three scalar parsers `parse_float`, `parse_percent`, `parse_high_low`;
* the declarative field map `COMMON_FIELD_MAP` / `HIGH_LOW_FIELDS`;
* the per-ticker record construction inside `collect_quote_features`
  (called `buildRecord` here, matching the spec's name for it);
* the snapshot assembly of `collect_quote_features` (the single
  `snapshot_utc` timestamp is modelled as an explicit parameter `now`,
  reflecting that `datetime.now(timezone.utc).isoformat()` is evaluated
  exactly once, after the loop);
* the CLI ticker normalization of `main`
  (`[t.strip().upper() for t in args.tickers.split(",") if t.strip()]`).

Python `float` values are modelled exactly: a parsed decimal string is kept
as a rational number (`PyFloat.finite`), and the special values produced by
Python's `float()` constructor (`inf`, `-inf`, `nan`, accepted
case-insensitively) are explicit constructors.  Decimal-to-binary rounding
of IEEE doubles is idealized away; every property below concerns the string
manipulation and parsing logic, which is insensitive to that idealization.
Python's `str.strip` / `float()` whitespace handling is modelled over the
ASCII whitespace characters.
-/

/-! ### Character utilities -/

/-- Whitespace recognized by Python's `str.strip()` / `float()`
(ASCII fragment): space, tab, newline, vertical tab, form feed,
carriage return. -/
def isPyWs (c : Char) : Bool :=
  c.toNat = 32 || c.toNat = 9 || c.toNat = 10 || c.toNat = 11 ||
  c.toNat = 12 || c.toNat = 13

/-- ASCII decimal digit test. -/
def isDig (c : Char) : Bool :=
  48 ≤ c.toNat && c.toNat ≤ 57

/-- Numeric value of a digit character. -/
def digitVal (c : Char) : Nat := c.toNat - 48

/-- The digit character for `n < 10`. -/
def digitChar (n : Nat) : Char := Char.ofNat (48 + n)

/-- Left trim, as in Python `str.strip()` (leading part). -/
def stripLeft (cs : List Char) : List Char := cs.dropWhile isPyWs

/-- Right trim, as in Python `str.strip()` (trailing part). -/
def stripRight (cs : List Char) : List Char :=
  (cs.reverse.dropWhile isPyWs).reverse

/-- Both-ends trim: Python `str.strip()` on a character list. -/
def stripList (cs : List Char) : List Char := stripRight (stripLeft cs)

/-- Python `str.strip()`. -/
def pyStrip (s : String) : String := String.mk (stripList s.data)

/-- Python `str.upper()` (ASCII fragment, which covers ticker symbols). -/
def pyUpper (s : String) : String := String.mk (s.data.map Char.toUpper)

/-! ### The Python float model -/

/-- Result of a successful Python `float(...)` call: a finite value
(kept exact as a rational), an infinity, or a NaN. -/
inductive PyFloat where
  | finite : ℚ → PyFloat
  | inf : Bool → PyFloat
  | nan : PyFloat
deriving DecidableEq, Repr

/-- Leading-sign split used by `float()`: at most one `+`/`-`. -/
def splitSign (cs : List Char) : Bool × List Char :=
  match cs with
  | [] => (false, [])
  | c :: rest =>
    if c = '+' then (false, rest)
    else if c = '-' then (true, rest)
    else (false, c :: rest)

/-- Sign of an exponent part. -/
def expSign (cs : List Char) : Int × List Char :=
  match cs with
  | [] => (1, [])
  | c :: rest =>
    if c = '+' then (1, rest)
    else if c = '-' then (-1, rest)
    else (1, c :: rest)

/-- Underscore validity in CPython numeric strings: every `_` must be
directly between two digits.  `prev` is the character before the current
position (initially a non-digit placeholder). -/
def okU (prev : Char) : List Char → Bool
  | [] => true
  | c :: rest =>
    if c = '_' then
      (isDig prev &&
        (match rest with
         | d :: _ => isDig d
         | [] => false)) && okU c rest
    else okU c rest

/-- Underscore validity for a whole numeric string. -/
def okUnderscores (cs : List Char) : Bool := okU ' ' cs

/-- Value of a digit string read most-significant first. -/
def natOfDigits (cs : List Char) : Nat :=
  cs.foldl (fun a c => 10 * a + digitVal c) 0

/-- Exponent part after `e`/`E`: optional sign then a nonempty digit run. -/
def parseExp (cs : List Char) : Option Int :=
  if (expSign cs).2 ≠ [] ∧ (expSign cs).2.all isDig then
    some ((expSign cs).1 * (natOfDigits (expSign cs).2 : Int))
  else none

/-- Exact value of `mNum · 10^e / 10^fl` where `mNum` is the mantissa read
without its decimal point and `fl` the number of fractional digits. -/
def decValue (mNum fl : Nat) (e : Int) : ℚ :=
  if 0 ≤ e then mkRat (mNum * 10 ^ e.toNat : Nat) (10 ^ fl)
  else mkRat (mNum : Nat) (10 ^ (fl + (-e).toNat))

/-- Decimal literal accepted by `float()` after sign removal and
underscore filtering: `digits [. digits] [(e|E) [sign] digits]` with at
least one mantissa digit. -/
def parseDec (cs : List Char) : Option ℚ :=
  match parseExpPart (cs.dropWhile (fun c => c ≠ 'e' && c ≠ 'E')) with
  | none => none
  | some e =>
    parseMant (cs.takeWhile (fun c => c ≠ 'e' && c ≠ 'E')) e
where
  parseExpPart : List Char → Option Int
    | [] => some 0
    | _ :: r => parseExp r
  parseMant (mant : List Char) (e : Int) : Option ℚ :=
    if (mant.takeWhile (fun c => c ≠ '.')).all isDig ∧
       (dotFrac (mant.dropWhile (fun c => c ≠ '.'))).all isDig ∧
       (mant.takeWhile (fun c => c ≠ '.')) ++
         (dotFrac (mant.dropWhile (fun c => c ≠ '.'))) ≠ [] then
      some (decValue
        (natOfDigits ((mant.takeWhile (fun c => c ≠ '.')) ++
          (dotFrac (mant.dropWhile (fun c => c ≠ '.')))))
        (dotFrac (mant.dropWhile (fun c => c ≠ '.'))).length e)
    else none
  dotFrac : List Char → List Char
    | [] => []
    | _ :: r => r

/-- Core of Python `float(...)` after whitespace strip and sign split:
case-insensitive `inf`/`infinity`/`nan`, else a decimal literal. -/
def pyFloatCore (neg : Bool) (rest : List Char) : Option PyFloat :=
  if rest.map Char.toLower = "inf".data ∨ rest.map Char.toLower = "infinity".data then
    some (PyFloat.inf neg)
  else if rest.map Char.toLower = "nan".data then
    some PyFloat.nan
  else if okUnderscores rest then
    match parseDec (rest.filter (fun c => c ≠ '_')) with
    | some qv => some (PyFloat.finite (if neg then -qv else qv))
    | none => none
  else none

/-- Python `float(s)` on a string: `none` models a raised `ValueError`. -/
def pyFloatOfString (s : String) : Option PyFloat :=
  pyFloatCore (splitSign (stripList s.data)).1 (splitSign (stripList s.data)).2

/-! ### The scalar parsers of the script -/

/-- The sentinel set `{"", "-", "NaN", "nan"}` of the script (checked
after `strip()`, by exact string equality). -/
def sentinelStrings : List String := ["", "-", "NaN", "nan"]

/-- `parse_float` of the script.  `none` input models Python `None`. -/
def parse_float (value : Option String) : Option PyFloat :=
  match value with
  | none => none
  | some v =>
    if pyStrip v ∈ sentinelStrings then none
    else pyFloatOfString (String.mk ((pyStrip v).data.filter (fun c => c ≠ ',')))

/-- Removal of one trailing percent sign, as in
`if text.endswith("%"): text = text[:-1]`. -/
def dropTrailingPct (cs : List Char) : List Char :=
  if cs.getLast? = some '%' then cs.dropLast else cs

/-- `parse_percent` of the script. -/
def parse_percent (value : Option String) : Option PyFloat :=
  match value with
  | none => none
  | some v =>
    if pyStrip v ∈ sentinelStrings then none
    else pyFloatOfString
      (String.mk ((dropTrailingPct (pyStrip v).data).filter (fun c => c ≠ ',')))

/-- Whitespace tokenization, as in Python `str.split()` with no argument:
split on runs of whitespace, no empty tokens.  `cur` is the (reversed)
token under construction. -/
def wsTokensAux (cur : List Char) : List Char → List (List Char)
  | [] => if cur = [] then [] else [cur.reverse]
  | c :: rest =>
    if isPyWs c then
      if cur = [] then wsTokensAux [] rest
      else cur.reverse :: wsTokensAux [] rest
    else wsTokensAux (c :: cur) rest

/-- Whitespace tokenization of a character list. -/
def wsTokens (cs : List Char) : List (List Char) := wsTokensAux [] cs

/-- Python `s.split()` on a string. -/
def pySplit (s : String) : List String :=
  (wsTokens s.data).map (fun cs => String.mk cs)

/-- `parse_high_low` of the script: sentinel handling, then
`parts = text.split()`, `parse_float(parts[0]) if parts else None`,
`parse_percent(parts[1]) if len(parts) > 1 else None`. -/
def parse_high_low (value : Option String) : Option PyFloat × Option PyFloat :=
  match value with
  | none => (none, none)
  | some v =>
    if pyStrip v ∈ sentinelStrings then (none, none)
    else
      ((match pySplit (pyStrip v) with
        | [] => none
        | p :: _ => parse_float (some p)),
       (match (pySplit (pyStrip v)).get? 1 with
        | some p => parse_percent (some p)
        | none => none))

/-! ### Exception-aware variants

The `Except` variants make every potentially raising operation of the
Python code explicit: `float(...)` raising `ValueError` (caught by the
`try`/`except` of `parse_float`/`parse_percent`) and list indexing
raising `IndexError` (guarded by `if parts` / `len(parts) > 1`).
Totality of the scalar parsers is the statement that these variants
always return `.ok`. -/

/-- List indexing `l[i]`, raising `IndexError` when out of range. -/
def listIdxE (l : List String) (i : Nat) : Except String String :=
  match l.get? i with
  | some x => Except.ok x
  | none => Except.error "IndexError"

/-- `float(s)` raising `ValueError` on unparsable input. -/
def pyFloatOfStringE (s : String) : Except String PyFloat :=
  match pyFloatOfString s with
  | some f => Except.ok f
  | none => Except.error "ValueError"

/-- The `try: return float(text) except ValueError: return None` block. -/
def catchValueError (r : Except String PyFloat) : Except String (Option PyFloat) :=
  match r with
  | Except.ok f => Except.ok (some f)
  | Except.error _ => Except.ok none

/-- `parse_float` with the `try: ... except ValueError: return None`
written out explicitly. -/
def parse_floatE (value : Option String) : Except String (Option PyFloat) :=
  match value with
  | none => Except.ok none
  | some v =>
    if pyStrip v ∈ sentinelStrings then Except.ok none
    else catchValueError
      (pyFloatOfStringE (String.mk ((pyStrip v).data.filter (fun c => c ≠ ','))))

/-- `parse_percent` with the exception handling written out explicitly. -/
def parse_percentE (value : Option String) : Except String (Option PyFloat) :=
  match value with
  | none => Except.ok none
  | some v =>
    if pyStrip v ∈ sentinelStrings then Except.ok none
    else catchValueError
      (pyFloatOfStringE
        (String.mk ((dropTrailingPct (pyStrip v).data).filter (fun c => c ≠ ','))))

/-- `parse_high_low` with the guarded list indexing written out
explicitly; an unguarded out-of-range access would surface as
`.error "IndexError"`. -/
def parse_high_lowE (value : Option String) :
    Except String (Option PyFloat × Option PyFloat) :=
  match value with
  | none => Except.ok (none, none)
  | some v =>
    if pyStrip v ∈ sentinelStrings then Except.ok (none, none)
    else
      match (if (pySplit (pyStrip v)).length ≠ 0 then
               (listIdxE (pySplit (pyStrip v)) 0).map (fun p => parse_float (some p))
             else Except.ok none) with
      | Except.error e => Except.error e
      | Except.ok price =>
        match (if 1 < (pySplit (pyStrip v)).length then
                 (listIdxE (pySplit (pyStrip v)) 1).map (fun p => parse_percent (some p))
               else Except.ok none) with
        | Except.error e => Except.error e
        | Except.ok pct => Except.ok (price, pct)

/-! ### Field map and record construction -/

/-- The closed set of parsers referenced by `COMMON_FIELD_MAP`. -/
inductive ParserKind where
  | pfloat : ParserKind
  | ppercent : ParserKind
deriving DecidableEq, Repr

/-- Application of a field-map parser. -/
def applyParser : ParserKind → Option String → Option PyFloat
  | ParserKind.pfloat, v => parse_float v
  | ParserKind.ppercent, v => parse_percent v

/-- `COMMON_FIELD_MAP` of the script: source field, target column, parser
(in the declaration order of the Python dict, which is its iteration
order). -/
def COMMON_FIELD_MAP : List (String × String × ParserKind) :=
  [("Price", "price", ParserKind.pfloat),
   ("Change", "change_pct", ParserKind.ppercent),
   ("P/E", "pe", ParserKind.pfloat),
   ("Forward P/E", "forward_pe", ParserKind.pfloat),
   ("PEG", "peg", ParserKind.pfloat),
   ("EPS this Y", "eps_growth_this_year_pct", ParserKind.ppercent),
   ("EPS next Y", "eps_next_year", ParserKind.pfloat),
   ("EPS next 5Y", "eps_next_5y_pct", ParserKind.ppercent),
   ("Sales Y/Y TTM", "sales_yoy_ttm_pct", ParserKind.ppercent),
   ("EPS Q/Q", "eps_qoq_pct", ParserKind.ppercent),
   ("Sales Q/Q", "sales_qoq_pct", ParserKind.ppercent),
   ("ROE", "roe_pct", ParserKind.ppercent),
   ("ROIC", "roic_pct", ParserKind.ppercent),
   ("Gross Margin", "gross_margin_pct", ParserKind.ppercent),
   ("Oper. Margin", "oper_margin_pct", ParserKind.ppercent),
   ("Profit Margin", "profit_margin_pct", ParserKind.ppercent),
   ("Debt/Eq", "debt_to_equity", ParserKind.pfloat),
   ("LT Debt/Eq", "lt_debt_to_equity", ParserKind.pfloat),
   ("Current Ratio", "current_ratio", ParserKind.pfloat),
   ("Quick Ratio", "quick_ratio", ParserKind.pfloat),
   ("Short Float", "short_float_pct", ParserKind.ppercent),
   ("Short Ratio", "short_ratio", ParserKind.pfloat),
   ("Insider Own", "insider_own_pct", ParserKind.ppercent),
   ("Insider Trans", "insider_trans_pct", ParserKind.ppercent),
   ("Inst Own", "institutional_own_pct", ParserKind.ppercent),
   ("Inst Trans", "institutional_trans_pct", ParserKind.ppercent),
   ("Perf Week", "perf_week_pct", ParserKind.ppercent),
   ("Perf Month", "perf_month_pct", ParserKind.ppercent),
   ("SMA20", "sma20_pct", ParserKind.ppercent),
   ("SMA50", "sma50_pct", ParserKind.ppercent),
   ("SMA200", "sma200_pct", ParserKind.ppercent),
   ("RSI (14)", "rsi_14", ParserKind.pfloat)]

/-- `HIGH_LOW_FIELDS` of the script: source field, price column,
distance column. -/
def HIGH_LOW_FIELDS : List (String × String × String) :=
  [("52W High", "52w_high_price", "52w_high_distance_pct"),
   ("52W Low", "52w_low_price", "52w_low_distance_pct")]

/-- A cell of a row: a (possibly missing) string for the identity /
categorical columns, a (possibly missing) number for parsed columns. -/
inductive Cell where
  | ofStr : Option String → Cell
  | ofNum : Option PyFloat → Cell
deriving DecidableEq, Repr

/-- A raw per-ticker field mapping as returned by
`stock.ticker_fundament()`; `fundament.get(k)` is modelled as function
application. -/
def RawQuote : Type := String → Option String

/-- A normalized row: an insertion-ordered key/value association list,
modelling the Python dict `row` (all keys are distinct). -/
def Row : Type := List (String × Cell)

/-- The per-ticker row construction inside `collect_quote_features`
(the spec's `buildRecord`): identity and categorical fields, then the
field-map columns, then both columns of each high/low field.  The pure
`parse_high_low` call is shared between the two columns exactly as in the
script. -/
def buildRecord (ticker : String) (fundament : RawQuote) : Row :=
  ("ticker", Cell.ofStr (some (pyUpper ticker))) ::
  ("sector", Cell.ofStr (fundament "Sector")) ::
  ("industry", Cell.ofStr (fundament "Industry")) ::
  ("country", Cell.ofStr (fundament "Country")) ::
  (COMMON_FIELD_MAP.map
      (fun e => (e.2.1, Cell.ofNum (applyParser e.2.2 (fundament e.1)))) ++
    HIGH_LOW_FIELDS.foldr
      (fun e acc =>
        (e.2.1, Cell.ofNum (parse_high_low (fundament e.1)).1) ::
        (e.2.2, Cell.ofNum (parse_high_low (fundament e.1)).2) :: acc) [])

/-- Column insertion at a position, as in `df.insert(1, col, scalar)`
applied to one row. -/
def insertCol (pos : Nat) (kv : String × Cell) (r : Row) : Row :=
  r.take pos ++ kv :: r.drop pos

/-- `collect_quote_features`: one row per ticker in order, then the single
shared `snapshot_utc` column inserted at position 1 of every row.  The
timestamp `now` is a parameter because the script computes it exactly once
per run; `fetch` is the external quote source
(`finvizfinance(ticker).ticker_fundament()`). -/
def collect_quote_features (now : String) (tickers : List String)
    (fetch : String → RawQuote) : List Row :=
  (tickers.map (fun t => buildRecord t (fetch t))).map
    (fun r => insertCol 1 ("snapshot_utc", Cell.ofStr (some now)) r)

/-- The key list every built row has (ticker, the categoricals, the
field-map target columns, both high/low target columns). -/
def rowKeys : List String :=
  "ticker" :: "sector" :: "industry" :: "country" ::
    (COMMON_FIELD_MAP.map (fun e => e.2.1) ++
      HIGH_LOW_FIELDS.foldr (fun e acc => e.2.1 :: e.2.2 :: acc) [])

/-! ### CLI ticker normalization of `main` -/

/-- Python `s.split(",")`: split at every comma, keeping empty pieces. -/
def sepSplitAux (cur : List Char) : List Char → List (List Char)
  | [] => [cur.reverse]
  | c :: rest =>
    if c = ',' then cur.reverse :: sepSplitAux [] rest
    else sepSplitAux (c :: cur) rest

/-- Python `s.split(",")` on a string. -/
def splitComma (s : String) : List String :=
  (sepSplitAux [] s.data).map (fun cs => String.mk cs)

/-- The ticker normalization of `main`:
`[t.strip().upper() for t in args.tickers.split(",") if t.strip()]`. -/
def main_tickers (arg : String) : List String :=
  ((splitComma arg).filter (fun t => pyStrip t != "")).map
    (fun t => pyUpper (pyStrip t))

/-! ### Python `str()` on floats -/

/-- Digit accumulation for `natToDigits`; the first argument is fuel
(`n ≤ fuel` suffices since `n` shrinks by a factor of ten each step). -/
def natToDigitsAux : Nat → Nat → List Char → List Char
  | 0, _, acc => acc
  | fuel + 1, n, acc =>
    if n = 0 then acc
    else natToDigitsAux fuel (n / 10) (digitChar (n % 10) :: acc)

/-- Decimal digit string of a natural number. -/
def natToDigits (n : Nat) : List Char :=
  if n = 0 then ['0'] else natToDigitsAux n n []

/-- The least `j ≤ d` with `d ∣ 10^j` (when one exists; `d` otherwise).
For a denominator of a Python float such a `j` always exists. -/
def findPow (d : Nat) : Nat :=
  (((List.range (d + 1)).find? (fun j => 10 ^ j % d == 0)).getD d)

/-- Plain decimal rendering `sign digits . digits`. -/
def renderDec (sign : Bool) (ip fp : List Char) : String :=
  String.mk ((if sign then ['-'] else []) ++ ip ++ '.' :: fp)

/-- Decimal rendering of a rational with 10-smooth denominator, matching
Python `str()` on a float of that value (`"1234.5"`, `"0.1"`, integral
values get a trailing `".0"`; Python's switch to exponent form for very
large/small magnitudes is not modelled — both forms re-parse to the same
value, which is the only property used). -/
def ratRepr (q : ℚ) : String :=
  if findPow q.den = 0 then
    renderDec (decide (q < 0)) (natToDigits (q.num.natAbs * 10 ^ findPow q.den / q.den)) ['0']
  else
    renderDec (decide (q < 0))
      ((padded q).take ((padded q).length - findPow q.den))
      ((padded q).drop ((padded q).length - findPow q.den))
where
  padded (q : ℚ) : List Char :=
    List.replicate
        (findPow q.den + 1 - (natToDigits (q.num.natAbs * 10 ^ findPow q.den / q.den)).length)
        '0' ++
      natToDigits (q.num.natAbs * 10 ^ findPow q.den / q.den)

/-- Python `str()` on a float value. -/
def pyStr : PyFloat → String
  | PyFloat.nan => "nan"
  | PyFloat.inf b => if b then "-inf" else "inf"
  | PyFloat.finite q => ratRepr q

/-- Unfolding of a decimal rational literal into the computable `mkRat`
normal form (`Rat.ofScientific` is irreducible by design). -/
theorem ofSci_eq (m e : Nat) :
    (OfScientific.ofScientific m true e : ℚ) = mkRat m (10 ^ e) :=
  Rat.ofScientific_true_def

example : parse_float (some "1,234.5") = some (PyFloat.finite 1234.5) := by
  simp only [ofSci_eq]; decide
example : parse_float (some "NAN") = some PyFloat.nan := by decide
example : parse_percent (some "12.5%") = some (PyFloat.finite 12.5) := by
  simp only [ofSci_eq]; decide
example : parse_percent (some "-3.2%") = some (PyFloat.finite (-3.2)) := by
  simp only [ofSci_eq]; decide
example : parse_high_low (some "150.25 -5.10%") =
    (some (PyFloat.finite 150.25), some (PyFloat.finite (-5.1))) := by
  simp only [ofSci_eq]; decide
example : parse_high_low (some "150.25") = (some (PyFloat.finite 150.25), none) := by
  simp only [ofSci_eq]; decide
example : parse_high_low (some "-") = (none, none) := by decide
example : ratRepr (mkRat 2469 2) = "1234.5" := by decide
example : ratRepr (mkRat (-16) 5) = "-3.2" := by decide
example : ratRepr (mkRat 5 1) = "5.0" := by decide
example : main_tickers " aapl ,MSFT" = ["AAPL", "MSFT"] := by decide

/-! ### Basic string lemmas -/

theorem strData_append (a b : String) : (a ++ b).data = a.data ++ b.data := by
  cases a; cases b; rfl

theorem stripRight_concat_ws (l : List Char) (c : Char) (hc : isPyWs c = true) :
    stripRight (l ++ [c]) = stripRight l := by
  simp [stripRight, List.reverse_append, List.dropWhile_cons_of_pos hc]

theorem stripList_concat_ws (l : List Char) (c : Char) (hc : isPyWs c = true) :
    stripList (l ++ [c]) = stripList l := by
  induction l with
  | nil =>
    simp [stripList, stripLeft, List.dropWhile_cons_of_pos hc]
  | cons a l ih =>
    by_cases ha : isPyWs a = true
    · simpa [stripList, stripLeft, List.dropWhile_cons_of_pos ha] using ih
    · have ha' : ¬ (isPyWs a = true) := ha
      simp only [stripList, stripLeft, List.cons_append,
        List.dropWhile_cons_of_neg ha']
      exact stripRight_concat_ws (a :: l) c hc

theorem stripList_cons_ws (l : List Char) (c : Char) (hc : isPyWs c = true) :
    stripList (c :: l) = stripList l := by
  simp [stripList, stripLeft, List.dropWhile_cons_of_pos hc]

theorem pyStrip_wrap (s : String) : pyStrip (" " ++ s ++ " ") = pyStrip s := by
  apply String.ext
  show stripList (" " ++ s ++ " ").data = stripList s.data
  have h : (" " ++ s ++ " ").data = ' ' :: (s.data ++ [' ']) := by
    simp [strData_append]
  rw [h, stripList_cons_ws _ ' ' (by decide), stripList_concat_ws _ ' ' (by decide)]

theorem parse_float_congr {a b : String} (h : pyStrip a = pyStrip b) :
    parse_float (some a) = parse_float (some b) := by
  simp only [parse_float, h]

/-! ### Claim C5 (corrected) -/

/-- C5 counterexample: the claim says any casing of `"nan"` maps to `None`,
but the sentinel set of `parse_float` is the exact pair `{"NaN", "nan"}`;
the casing `"NAN"` slips through to `float()`, which accepts it and
returns the float NaN value, not `None`. -/
theorem c5_counterexample :
    parse_float (some "NAN") = some PyFloat.nan ∧ parse_float (some "NAN") ≠ none := by
  decide

/-- C5 (amended): `parse_float` trims surrounding whitespace, maps the
exact sentinels `""`, `"-"`, `"NaN"`, `"nan"` (after trimming) to `None`,
strips thousands-separator commas (`parse_float "1,234.5" = 1234.5`), and
otherwise hands the comma-stripped text to `float()` (returning its value,
or `None` when it is not numeric); other casings such as `"NAN"` are
accepted by `float()` as the NaN value rather than mapped to `None`. -/
theorem c5_parse_float_behavior :
    (∀ s : String, pyStrip s ∈ sentinelStrings → parse_float (some s) = none) ∧
    parse_float (some "1,234.5") = some (PyFloat.finite 1234.5) ∧
    parse_float (some "NAN") = some PyFloat.nan ∧
    (∀ s : String, parse_float (some (" " ++ s ++ " ")) = parse_float (some s)) ∧
    (∀ s : String, pyStrip s ∉ sentinelStrings →
      parse_float (some s) =
        pyFloatOfString (String.mk ((pyStrip s).data.filter (fun c => c ≠ ',')))) := by
  refine ⟨?_, ?_, ?_, ?_, ?_⟩
  · intro s h
    simp only [parse_float, if_pos h]
  · simp only [ofSci_eq]; decide
  · decide
  · intro s
    exact parse_float_congr (pyStrip_wrap s)
  · intro s h
    simp only [parse_float, if_neg h]

/-- C5 witness: concrete instances of the quantified parts of
`c5_parse_float_behavior`. -/
theorem c5_witness :
    parse_float (some "  -  ") = none ∧
    parse_float (some (" " ++ "7" ++ " ")) = parse_float (some "7") :=
  ⟨c5_parse_float_behavior.1 "  -  " (by decide),
   c5_parse_float_behavior.2.2.2.1 "7"⟩

/-! ### Claim C6 (confirmed) -/

/-- C6: `parse_percent` shares the sentinel handling of `parse_float`,
strips one single trailing percent sign before numeric parsing (so
`"5%%"` is unparsable), and returns the value unscaled in
percentage-point units: `12.5` for `"12.5%"`, `-3.2` for `"-3.2%"`. -/
theorem c6_parse_percent_behavior :
    parse_percent (some "12.5%") = some (PyFloat.finite 12.5) ∧
    parse_percent (some "-3.2%") = some (PyFloat.finite (-3.2)) ∧
    parse_percent (some "-") = none ∧
    parse_percent (some "") = none ∧
    (∀ s : String, pyStrip s ∈ sentinelStrings →
      parse_percent (some s) = none ∧ parse_float (some s) = none) ∧
    parse_percent (some "5%%") = none ∧
    parse_percent none = none := by
  refine ⟨?_, ?_, ?_, ?_, ?_, ?_, ?_⟩
  · simp only [ofSci_eq]; decide
  · simp only [ofSci_eq]; decide
  · decide
  · decide
  · intro s h
    constructor
    · simp only [parse_percent, if_pos h]
    · simp only [parse_float, if_pos h]
  · decide
  · rfl

/-- C6 witness: the shared sentinel handling at a concrete input. -/
theorem c6_witness :
    parse_percent (some " nan ") = none ∧ parse_float (some " nan ") = none :=
  c6_parse_percent_behavior.2.2.2.2.1 " nan " (by decide)

/-! ### Claim C9 (confirmed) -/

/-- C9: `parse_percent` strips thousands-separator commas exactly like
`parse_float`: `"1,234.5%"` parses to `1234.5`, and on any input whose
trimmed text does not end in a percent sign the two parsers agree
entirely. -/
theorem c9_percent_commas :
    parse_percent (some "1,234.5%") = some (PyFloat.finite 1234.5) ∧
    (∀ s : String, ¬ (pyStrip s).data.getLast? = some '%' →
      parse_percent (some s) = parse_float (some s)) := by
  constructor
  · simp only [ofSci_eq]; decide
  · intro s h
    by_cases hs : pyStrip s ∈ sentinelStrings
    · simp only [parse_percent, parse_float, if_pos hs]
    · simp only [parse_percent, parse_float, if_neg hs, dropTrailingPct, if_neg h]

/-- C9 witness: agreement of the two parsers at a concrete
non-percent input. -/
theorem c9_witness : parse_percent (some "4,2") = parse_float (some "4,2") :=
  c9_percent_commas.2 "4,2" (by decide)

/-! ### Claim C4 (confirmed) -/

/-- C4: the three scalar parsers are total: their exception-explicit
variants always return `.ok` of the plain result (every potentially
raising operation — `float()` and list indexing — is caught or guarded),
and sentinel input (including `None`) degrades to `None` /
`(None, None)`. -/
theorem c4_parsers_total (v : Option String) :
    parse_floatE v = Except.ok (parse_float v) ∧
    parse_percentE v = Except.ok (parse_percent v) ∧
    parse_high_lowE v = Except.ok (parse_high_low v) ∧
    ((v = none ∨ ∃ s, v = some s ∧ pyStrip s ∈ sentinelStrings) →
      parse_float v = none ∧ parse_percent v = none ∧
        parse_high_low v = (none, none)) := by
  have hcatch : ∀ s : String,
      catchValueError (pyFloatOfStringE s) = Except.ok (pyFloatOfString s) := by
    intro s
    cases hf : pyFloatOfString s <;> simp [catchValueError, pyFloatOfStringE, hf]
  refine ⟨?_, ?_, ?_, ?_⟩
  · cases v with
    | none => rfl
    | some s =>
      by_cases h : pyStrip s ∈ sentinelStrings
      · simp [parse_floatE, parse_float, h]
      · simp only [parse_floatE, parse_float, if_neg h, hcatch]
  · cases v with
    | none => rfl
    | some s =>
      by_cases h : pyStrip s ∈ sentinelStrings
      · simp [parse_percentE, parse_percent, h]
      · simp only [parse_percentE, parse_percent, if_neg h, hcatch]
  · cases v with
    | none => rfl
    | some s =>
      by_cases h : pyStrip s ∈ sentinelStrings
      · simp [parse_high_lowE, parse_high_low, h]
      · cases hp : pySplit (pyStrip s) with
        | nil => simp [parse_high_lowE, parse_high_low, if_neg h, hp, listIdxE]
        | cons p rest =>
          cases rest with
          | nil => simp [parse_high_lowE, parse_high_low, if_neg h, hp, listIdxE, Except.map]
          | cons p2 r2 =>
            simp [parse_high_lowE, parse_high_low, if_neg h, hp, listIdxE, Except.map]
  · intro h
    rcases h with rfl | ⟨s, rfl, hs⟩
    · exact ⟨rfl, rfl, rfl⟩
    · exact ⟨by simp only [parse_float, if_pos hs],
        by simp only [parse_percent, if_pos hs],
        by simp only [parse_high_low, if_pos hs]⟩

/-- C4 witness: the sentinel degradation at a concrete input. -/
theorem c4_witness :
    parse_float (some "NaN") = none ∧ parse_percent (some "NaN") = none ∧
      parse_high_low (some "NaN") = (none, none) :=
  (c4_parsers_total (some "NaN")).2.2.2 (Or.inr ⟨"NaN", rfl, by decide⟩)

/-! ### Whitespace tokenization lemmas -/

theorem strMk_data (t : String) : String.mk t.data = t := rfl

theorem wsTokensAux_props : ∀ (cs cur : List Char),
    (∀ c ∈ cur, isPyWs c = false) →
    ∀ t ∈ wsTokensAux cur cs, t ≠ [] ∧ ∀ c ∈ t, isPyWs c = false := by
  intro cs
  induction cs with
  | nil =>
    intro cur hcur t ht
    by_cases h : cur = []
    · simp [wsTokensAux, h] at ht
    · simp only [wsTokensAux, if_neg h, List.mem_singleton] at ht
      subst ht
      exact ⟨by simpa using h, fun c hc => hcur c (List.mem_reverse.mp hc)⟩
  | cons c rest ih =>
    intro cur hcur t ht
    simp only [wsTokensAux] at ht
    by_cases hws : isPyWs c = true
    · rw [if_pos hws] at ht
      by_cases h : cur = []
      · rw [if_pos h] at ht
        exact ih [] (by simp) t ht
      · rw [if_neg h] at ht
        rcases List.mem_cons.mp ht with rfl | ht2
        · exact ⟨by simpa using h, fun c2 hc2 => hcur c2 (List.mem_reverse.mp hc2)⟩
        · exact ih [] (by simp) t ht2
    · rw [if_neg hws] at ht
      refine ih (c :: cur) ?_ t ht
      intro c2 hc2
      rcases List.mem_cons.mp hc2 with rfl | h2
      · simpa using hws
      · exact hcur c2 h2

theorem wsTokensAux_append : ∀ (a : List Char),
    (∀ c ∈ a, isPyWs c = false) →
    ∀ (cur cs : List Char),
      wsTokensAux cur (a ++ cs) = wsTokensAux (a.reverse ++ cur) cs := by
  intro a
  induction a with
  | nil => intro _ cur cs; simp
  | cons c a' ih =>
    intro ha cur cs
    have hc : isPyWs c = false := ha c (by simp)
    have step : wsTokensAux cur ((c :: a') ++ cs) = wsTokensAux (c :: cur) (a' ++ cs) := by
      simp only [List.cons_append, wsTokensAux]
      rw [if_neg (by simp [hc])]
      rfl
    rw [step, ih (fun c2 h2 => ha c2 (by simp [h2])) (c :: cur) cs]
    congr 1
    simp

theorem wsTokens_single (a : List Char) (ha : a ≠ [])
    (hw : ∀ c ∈ a, isPyWs c = false) : wsTokens a = [a] := by
  calc wsTokens a = wsTokensAux [] (a ++ []) := by rw [List.append_nil]; rfl
  _ = wsTokensAux (a.reverse ++ []) [] := wsTokensAux_append a hw [] []
  _ = [a] := by
      simp only [List.append_nil, wsTokensAux]
      rw [if_neg (by simpa using ha)]
      simp

theorem wsTokens_pair (a b : List Char) (ha : a ≠ []) (hb : b ≠ [])
    (hwa : ∀ c ∈ a, isPyWs c = false) (hwb : ∀ c ∈ b, isPyWs c = false) :
    wsTokens (a ++ ' ' :: b) = [a, b] := by
  calc wsTokens (a ++ ' ' :: b)
      = wsTokensAux (a.reverse ++ []) (' ' :: b) := wsTokensAux_append a hwa [] (' ' :: b)
  _ = a :: wsTokensAux [] b := by
      simp only [List.append_nil, wsTokensAux]
      rw [if_pos (by decide : isPyWs ' ' = true), if_neg (by simpa using ha)]
      simp
  _ = [a, b] := by
      rw [show wsTokensAux [] b = wsTokens b from rfl, wsTokens_single b hb hwb]

theorem pySplit_token_props {s t : String} (h : t ∈ pySplit s) :
    t.data ≠ [] ∧ ∀ c ∈ t.data, isPyWs c = false := by
  rcases List.mem_map.mp h with ⟨cs, hcs, rfl⟩
  exact wsTokensAux_props s.data [] (by simp) cs hcs

theorem stripLeft_cons_nonws (c : Char) (l : List Char) (hc : isPyWs c = false) :
    stripLeft (c :: l) = c :: l :=
  List.dropWhile_cons_of_neg (by simp [hc])

theorem stripRight_concat_nonws (l : List Char) (c : Char) (hc : isPyWs c = false) :
    stripRight (l ++ [c]) = l ++ [c] := by
  simp [stripRight, List.reverse_append, List.dropWhile_cons_of_neg (by simp [hc] : ¬ isPyWs c = true)]

theorem stripList_token_pair (a b : List Char) (ha : a ≠ []) (hb : b ≠ [])
    (hwa : ∀ c ∈ a, isPyWs c = false) (hwb : ∀ c ∈ b, isPyWs c = false) :
    stripList (a ++ ' ' :: b) = a ++ ' ' :: b := by
  obtain ⟨c0, a', rfl⟩ := List.exists_cons_of_ne_nil ha
  have hleft : stripLeft ((c0 :: a') ++ ' ' :: b) = (c0 :: a') ++ ' ' :: b := by
    rw [List.cons_append]
    exact stripLeft_cons_nonws c0 (a' ++ ' ' :: b) (hwa c0 (by simp))
  have hsplit : (c0 :: a') ++ ' ' :: b =
      ((c0 :: a') ++ ' ' :: b.dropLast) ++ [b.getLast hb] := by
    conv_lhs => rw [← List.dropLast_append_getLast hb]
    simp
  rw [stripList, hleft, hsplit]
  exact stripRight_concat_nonws _ _ (hwb _ (List.getLast_mem hb))

theorem space_not_sentinel (u : String) (hmem : ' ' ∈ u.data) :
    u ∉ sentinelStrings := by
  intro hu
  have h4 : u = "" ∨ u = "-" ∨ u = "NaN" ∨ u = "nan" := by
    simpa [sentinelStrings] using hu
  rcases h4 with rfl | rfl | rfl | rfl <;> exact absurd hmem (by decide)

theorem pair_data (t0 t1 : String) :
    (t0 ++ " " ++ t1).data = t0.data ++ ' ' :: t1.data := by
  rw [strData_append, strData_append]
  simp [show (" " : String).data = [' '] from rfl]

/-! ### Claim C7 (confirmed) -/

/-- C7: `parse_high_low` returns `(None, None)` on sentinel input,
otherwise splits the trimmed text on whitespace and parses the first
token with `parse_float` and the second (when present) with
`parse_percent`; a missing second token yields `(price, None)`. -/
theorem c7_parse_high_low_behavior :
    parse_high_low (some "150.25 -5.10%") =
      (some (PyFloat.finite 150.25), some (PyFloat.finite (-5.1))) ∧
    parse_high_low (some "150.25") = (some (PyFloat.finite 150.25), none) ∧
    parse_high_low (some "-") = (none, none) ∧
    (∀ s : String, pyStrip s ∈ sentinelStrings → parse_high_low (some s) = (none, none)) ∧
    (∀ s t0 : String, pySplit (pyStrip s) = [t0] →
      parse_high_low (some s) = (parse_float (some t0), none)) ∧
    (∀ (s t0 t1 : String) (rest : List String),
      pySplit (pyStrip s) = t0 :: t1 :: rest →
      parse_high_low (some s) = (parse_float (some t0), parse_percent (some t1))) := by
  refine ⟨?_, ?_, ?_, ?_, ?_, ?_⟩
  · simp only [ofSci_eq]; decide
  · simp only [ofSci_eq]; decide
  · decide
  · intro s hs
    simp only [parse_high_low, if_pos hs]
  · intro s t0 h
    by_cases hs : pyStrip s ∈ sentinelStrings
    · rw [show parse_high_low (some s) = (none, none) from by
        simp only [parse_high_low, if_pos hs]]
      have h4 : pyStrip s = "" ∨ pyStrip s = "-" ∨ pyStrip s = "NaN" ∨ pyStrip s = "nan" := by
        simpa [sentinelStrings] using hs
      rcases h4 with h1 | h1 | h1 | h1 <;> rw [h1] at h
      · rw [show pySplit "" = ([] : List String) from rfl] at h
        exact absurd h (by simp)
      · rw [show pySplit "-" = ["-"] from rfl] at h
        obtain ⟨rfl, -⟩ := List.cons.inj h.symm
        decide
      · rw [show pySplit "NaN" = ["NaN"] from rfl] at h
        obtain ⟨rfl, -⟩ := List.cons.inj h.symm
        decide
      · rw [show pySplit "nan" = ["nan"] from rfl] at h
        obtain ⟨rfl, -⟩ := List.cons.inj h.symm
        decide
    · simp [parse_high_low, if_neg hs, h]
  · intro s t0 t1 rest h
    have hs : pyStrip s ∉ sentinelStrings := by
      intro hs
      have h4 : pyStrip s = "" ∨ pyStrip s = "-" ∨ pyStrip s = "NaN" ∨ pyStrip s = "nan" := by
        simpa [sentinelStrings] using hs
      rcases h4 with h1 | h1 | h1 | h1 <;> rw [h1] at h
      · rw [show pySplit "" = ([] : List String) from rfl] at h
        exact absurd h (by simp)
      · rw [show pySplit "-" = ["-"] from rfl] at h
        simp at h
      · rw [show pySplit "NaN" = ["NaN"] from rfl] at h
        simp at h
      · rw [show pySplit "nan" = ["nan"] from rfl] at h
        simp at h
    simp [parse_high_low, if_neg hs, h]

/-- C7 witness: concrete instances of the quantified parts. -/
theorem c7_witness :
    parse_high_low (some " 3 ") = (parse_float (some "3"), none) ∧
    parse_high_low (some "10 20 30") = (parse_float (some "10"), parse_percent (some "20")) :=
  ⟨c7_parse_high_low_behavior.2.2.2.2.1 " 3 " "3" (by decide),
   c7_parse_high_low_behavior.2.2.2.2.2 "10 20 30" "10" "20" ["30"] (by decide)⟩

/-! ### Claim C10 (confirmed) -/

/-- C10: `parse_high_low` silently ignores every token after the second:
whenever the trimmed input splits into two or more whitespace-separated
tokens, the result equals the result on just the first two tokens; in
particular extra trailing tokens never cause an error or a `None`
result. -/
theorem c10_extra_tokens_ignored :
    (∀ (s t0 t1 : String) (rest : List String),
      pySplit (pyStrip s) = t0 :: t1 :: rest →
      parse_high_low (some s) = parse_high_low (some (t0 ++ " " ++ t1))) ∧
    parse_high_low (some "150.25 -5.10% extra junk") =
      (some (PyFloat.finite 150.25), some (PyFloat.finite (-5.1))) := by
  constructor
  · intro s t0 t1 rest h
    have hmem0 : t0 ∈ pySplit (pyStrip s) := by rw [h]; exact List.mem_cons_self _ _
    have hmem1 : t1 ∈ pySplit (pyStrip s) := by
      rw [h]; exact List.mem_cons_of_mem _ (List.mem_cons_self _ _)
    obtain ⟨h0ne, h0w⟩ := pySplit_token_props hmem0
    obtain ⟨h1ne, h1w⟩ := pySplit_token_props hmem1
    have hstrip : pyStrip (t0 ++ " " ++ t1) = t0 ++ " " ++ t1 := by
      apply String.ext
      show stripList (t0 ++ " " ++ t1).data = (t0 ++ " " ++ t1).data
      rw [pair_data]
      exact stripList_token_pair t0.data t1.data h0ne h1ne h0w h1w
    have hsent2 : pyStrip (t0 ++ " " ++ t1) ∉ sentinelStrings := by
      rw [hstrip]
      refine space_not_sentinel _ ?_
      rw [pair_data]
      exact List.mem_append_right _ (List.mem_cons_self _ _)
    have hsplit2 : pySplit (pyStrip (t0 ++ " " ++ t1)) = [t0, t1] := by
      rw [hstrip]
      show (wsTokens (t0 ++ " " ++ t1).data).map (fun cs => String.mk cs) = [t0, t1]
      rw [pair_data, wsTokens_pair t0.data t1.data h0ne h1ne h0w h1w]
      simp [strMk_data]
    have hs : pyStrip s ∉ sentinelStrings := by
      intro hs
      have h4 : pyStrip s = "" ∨ pyStrip s = "-" ∨ pyStrip s = "NaN" ∨ pyStrip s = "nan" := by
        simpa [sentinelStrings] using hs
      rcases h4 with h1 | h1 | h1 | h1 <;> rw [h1] at h
      · rw [show pySplit "" = ([] : List String) from rfl] at h
        exact absurd h (by simp)
      · rw [show pySplit "-" = ["-"] from rfl] at h
        simp at h
      · rw [show pySplit "NaN" = ["NaN"] from rfl] at h
        simp at h
      · rw [show pySplit "nan" = ["nan"] from rfl] at h
        simp at h
    rw [show parse_high_low (some s) = (parse_float (some t0), parse_percent (some t1)) from by
      simp [parse_high_low, if_neg hs, h]]
    simp [parse_high_low, if_neg hsent2, hsplit2]
  · simp only [ofSci_eq]; decide

/-- C10 witness: ignoring trailing tokens at a concrete input. -/
theorem c10_witness :
    parse_high_low (some "1 2 3") = parse_high_low (some ("1" ++ " " ++ "2")) :=
  c10_extra_tokens_ignored.1 "1 2 3" "1" "2" ["3"] (by decide)

/-! ### Record builder lemmas -/

theorem lookup_common (t : String) (raw : RawQuote) :
    ∀ e ∈ COMMON_FIELD_MAP,
      (buildRecord t raw).lookup e.2.1 =
        some (Cell.ofNum (applyParser e.2.2 (raw e.1))) := by
  intro e he
  fin_cases he <;> rfl

theorem lookup_high_low (t : String) (raw : RawQuote) :
    ∀ e ∈ HIGH_LOW_FIELDS,
      (buildRecord t raw).lookup e.2.1 =
          some (Cell.ofNum (parse_high_low (raw e.1)).1) ∧
        (buildRecord t raw).lookup e.2.2 =
          some (Cell.ofNum (parse_high_low (raw e.1)).2) := by
  intro e he
  fin_cases he <;> exact ⟨rfl, rfl⟩

/-! ### Claim C1 (confirmed) -/

/-- C1: for every ticker and every raw quote (including the empty
mapping), the built row has exactly the keys of `rowKeys` — the ticker
column, the three categorical columns, every field-map target column and
both target columns of each high/low field — and any source field absent
from the raw quote yields a stored `None`, never a missing key. -/
theorem c1_row_schema_stable (t : String) (raw : RawQuote) :
    (buildRecord t raw).map Prod.fst = rowKeys ∧
    (∀ e ∈ COMMON_FIELD_MAP, raw e.1 = none →
      (buildRecord t raw).lookup e.2.1 = some (Cell.ofNum none)) ∧
    (∀ e ∈ HIGH_LOW_FIELDS, raw e.1 = none →
      (buildRecord t raw).lookup e.2.1 = some (Cell.ofNum none) ∧
        (buildRecord t raw).lookup e.2.2 = some (Cell.ofNum none)) ∧
    (raw "Sector" = none → (buildRecord t raw).lookup "sector" = some (Cell.ofStr none)) ∧
    (raw "Industry" = none → (buildRecord t raw).lookup "industry" = some (Cell.ofStr none)) ∧
    (raw "Country" = none → (buildRecord t raw).lookup "country" = some (Cell.ofStr none)) := by
  refine ⟨rfl, ?_, ?_, ?_, ?_, ?_⟩
  · intro e he hraw
    rw [lookup_common t raw e he, hraw]
    rcases e with ⟨src, col, pk⟩
    cases pk <;> rfl
  · intro e he hraw
    obtain ⟨h1, h2⟩ := lookup_high_low t raw e he
    rw [h1, h2, hraw]
    exact ⟨rfl, rfl⟩
  · intro hraw
    rw [show (buildRecord t raw).lookup "sector" = some (Cell.ofStr (raw "Sector")) from rfl, hraw]
  · intro hraw
    rw [show (buildRecord t raw).lookup "industry" = some (Cell.ofStr (raw "Industry")) from rfl,
      hraw]
  · intro hraw
    rw [show (buildRecord t raw).lookup "country" = some (Cell.ofStr (raw "Country")) from rfl,
      hraw]

/-- C1 witness: schema stability at a concrete ticker and the empty raw
quote. -/
theorem c1_witness :
    (buildRecord "msft" (fun _ => none)).map Prod.fst = rowKeys ∧
    (buildRecord "msft" (fun _ => none)).lookup "price" = some (Cell.ofNum none) ∧
    (buildRecord "msft" (fun _ => none)).lookup "52w_high_distance_pct" =
      some (Cell.ofNum none) ∧
    (buildRecord "msft" (fun _ => none)).lookup "sector" = some (Cell.ofStr none) :=
  ⟨(c1_row_schema_stable "msft" (fun _ => none)).1,
   (c1_row_schema_stable "msft" (fun _ => none)).2.1
     ("Price", "price", ParserKind.pfloat) (by decide) rfl,
   ((c1_row_schema_stable "msft" (fun _ => none)).2.2.1
     ("52W High", "52w_high_price", "52w_high_distance_pct") (by decide) rfl).2,
   (c1_row_schema_stable "msft" (fun _ => none)).2.2.2.1 rfl⟩

/-! ### Claim C2 (confirmed) -/

/-- C2: every row of one collection run carries the single shared
`snapshot_utc` value (the timestamp is computed once per run — modelled
by the single parameter `now` — and inserted identically into every row),
so no two rows of a run can disagree on it. -/
theorem c2_snapshot_consistent (now : String) (tickers : List String)
    (fetch : String → RawQuote) :
    (∀ row ∈ collect_quote_features now tickers fetch,
      row.lookup "snapshot_utc" = some (Cell.ofStr (some now))) ∧
    (∀ r1 ∈ collect_quote_features now tickers fetch,
      ∀ r2 ∈ collect_quote_features now tickers fetch,
        r1.lookup "snapshot_utc" = r2.lookup "snapshot_utc") := by
  have key : ∀ row ∈ collect_quote_features now tickers fetch,
      row.lookup "snapshot_utc" = some (Cell.ofStr (some now)) := by
    intro row hrow
    rcases List.mem_map.mp hrow with ⟨r0, hr0, rfl⟩
    rcases List.mem_map.mp hr0 with ⟨t, ht, rfl⟩
    rfl
  exact ⟨key, fun r1 h1 r2 h2 => (key r1 h1).trans (key r2 h2).symm⟩

/-- C2 witness: the shared timestamp read back from a concrete run. -/
theorem c2_witness :
    (insertCol 1 ("snapshot_utc", Cell.ofStr (some "2024-01-01T00:00:00+00:00"))
        (buildRecord "AAPL" (fun _ => none))).lookup "snapshot_utc" =
      some (Cell.ofStr (some "2024-01-01T00:00:00+00:00")) :=
  (c2_snapshot_consistent "2024-01-01T00:00:00+00:00" ["AAPL"] (fun _ _ => none)).1
    _ (List.mem_cons_self _ _)

/-! ### Claim C3 (corrected) -/

/-- C3 counterexample: `collect_quote_features` does not trim whitespace
from tickers — the ticker `" aapl "` produces a row whose ticker column
is `" AAPL "` (upper-cased but untrimmed), not the trimmed `"AAPL"` the
claim asserts.  (Trimming happens only in the CLI entry point `main`.) -/
theorem c3_counterexample :
    ((collect_quote_features "t0" [" aapl "] (fun _ _ => none)).head?.map
        (fun r => r.lookup "ticker")) = some (some (Cell.ofStr (some " AAPL "))) ∧
    (" AAPL " : String) ≠ "AAPL" := by
  constructor
  · rfl
  · decide

/-- C3 (amended): `collect_quote_features` preserves the caller-given
order without deduplication — `n` tickers yield exactly `n` rows in the
same order — and each row's ticker column holds the upper-cased ticker
exactly as given (no whitespace trimming inside `collect`); the
whitespace trimming of the claim is performed by the CLI entry point,
whose normalization maps every comma-separated entry with nonempty trim
to its trimmed, upper-cased form before `collect` is called. -/
theorem c3_collect_order_and_upper (now : String) (tickers : List String)
    (fetch : String → RawQuote) :
    (collect_quote_features now tickers fetch).length = tickers.length ∧
    (∀ i : Nat, ((collect_quote_features now tickers fetch).get? i).map
        (fun r => r.lookup "ticker") =
      (tickers.get? i).map (fun t => some (Cell.ofStr (some (pyUpper t))))) ∧
    (∀ (arg : String), ∀ t ∈ main_tickers arg,
      ∃ u ∈ splitComma arg, pyStrip u ≠ "" ∧ t = pyUpper (pyStrip u)) := by
  refine ⟨?_, ?_, ?_⟩
  · simp [collect_quote_features]
  · intro i
    simp only [collect_quote_features, List.get?_map]
    cases h : tickers.get? i with
    | none => rfl
    | some t => rfl
  · intro arg t ht
    rcases List.mem_map.mp ht with ⟨u, hu, rfl⟩
    rcases List.mem_filter.mp hu with ⟨humem, hcond⟩
    exact ⟨u, humem, by simpa using hcond, rfl⟩

/-! ### Decimal digit lemmas (towards C8) -/

theorem natOfDigits_from (init : Nat) (l : List Char) :
    l.foldl (fun a c => 10 * a + digitVal c) init =
      init * 10 ^ l.length + natOfDigits l := by
  induction l generalizing init with
  | nil => simp [natOfDigits]
  | cons c r ih =>
    show r.foldl _ (10 * init + digitVal c) = _
    rw [ih (10 * init + digitVal c)]
    have h2 : natOfDigits (c :: r) = digitVal c * 10 ^ r.length + natOfDigits r := by
      show r.foldl _ (10 * 0 + digitVal c) = _
      rw [ih (10 * 0 + digitVal c)]
      ring
    rw [h2]
    simp only [List.length_cons, pow_succ]
    ring

theorem natOfDigits_cons (c : Char) (l : List Char) :
    natOfDigits (c :: l) = digitVal c * 10 ^ l.length + natOfDigits l := by
  show l.foldl _ (10 * 0 + digitVal c) = _
  rw [natOfDigits_from]
  ring

theorem natOfDigits_append (a b : List Char) :
    natOfDigits (a ++ b) = natOfDigits a * 10 ^ b.length + natOfDigits b := by
  show (a ++ b).foldl _ 0 = _
  rw [List.foldl_append]
  exact natOfDigits_from _ b

theorem natOfDigits_replicate_zero (j : Nat) (l : List Char) :
    natOfDigits (List.replicate j '0' ++ l) = natOfDigits l := by
  induction j with
  | zero => simp
  | succ j ih =>
    rw [List.replicate_succ, List.cons_append, natOfDigits_cons,
      show digitVal '0' = 0 from by decide, ih]
    ring

theorem digitVal_digitChar : ∀ r : Nat, r < 10 → digitVal (digitChar r) = r := by decide

theorem isDig_digitChar : ∀ r : Nat, r < 10 → isDig (digitChar r) = true := by decide

theorem natToDigitsAux_acc : ∀ (fuel n : Nat) (acc : List Char),
    natToDigitsAux fuel n acc = natToDigitsAux fuel n [] ++ acc := by
  intro fuel
  induction fuel with
  | zero => intro n acc; rfl
  | succ fuel ih =>
    intro n acc
    by_cases h : n = 0
    · simp [natToDigitsAux, h]
    · simp only [natToDigitsAux, if_neg h]
      rw [ih (n / 10) (digitChar (n % 10) :: acc), ih (n / 10) [digitChar (n % 10)]]
      simp

theorem natToDigitsAux_val : ∀ (fuel n : Nat), n ≤ fuel →
    natOfDigits (natToDigitsAux fuel n []) = n := by
  intro fuel
  induction fuel with
  | zero =>
    intro n h
    have h0 : n = 0 := by omega
    subst h0
    rfl
  | succ fuel ih =>
    intro n h
    by_cases h0 : n = 0
    · subst h0; rfl
    · simp only [natToDigitsAux, if_neg h0]
      rw [natToDigitsAux_acc fuel (n / 10) [digitChar (n % 10)], natOfDigits_append]
      have hlt : n / 10 < n := Nat.div_lt_self (by omega) (by omega)
      rw [ih (n / 10) (by omega)]
      have hm : n % 10 < 10 := Nat.mod_lt n (by omega)
      have hone : natOfDigits [digitChar (n % 10)] = n % 10 := by
        rw [show ([digitChar (n % 10)] : List Char) = digitChar (n % 10) :: [] from rfl,
          natOfDigits_cons, digitVal_digitChar _ hm]
        simp [natOfDigits]
      rw [hone]
      simp only [List.length_singleton, pow_one]
      omega

theorem natToDigits_val (n : Nat) : natOfDigits (natToDigits n) = n := by
  by_cases h : n = 0
  · subst h; rfl
  · simp only [natToDigits, if_neg h]
    exact natToDigitsAux_val n n le_rfl

theorem natToDigitsAux_digits : ∀ (fuel n : Nat),
    ∀ c ∈ natToDigitsAux fuel n [], isDig c = true := by
  intro fuel
  induction fuel with
  | zero => intro n c hc; simp [natToDigitsAux] at hc
  | succ fuel ih =>
    intro n c hc
    by_cases h0 : n = 0
    · simp [natToDigitsAux, h0] at hc
    · simp only [natToDigitsAux, if_neg h0] at hc
      rw [natToDigitsAux_acc fuel (n / 10) [digitChar (n % 10)]] at hc
      rcases List.mem_append.mp hc with h1 | h1
      · exact ih (n / 10) c h1
      · have : c = digitChar (n % 10) := by simpa using h1
        subst this
        exact isDig_digitChar _ (Nat.mod_lt n (by omega))

theorem natToDigits_digits (n : Nat) : ∀ c ∈ natToDigits n, isDig c = true := by
  by_cases h : n = 0
  · subst h; decide
  · simp only [natToDigits, if_neg h]
    exact natToDigitsAux_digits n n

theorem natToDigits_ne_nil (n : Nat) : natToDigits n ≠ [] := by
  by_cases h : n = 0
  · subst h; decide
  · simp only [natToDigits, if_neg h]
    cases n with
    | zero => exact absurd rfl h
    | succ m =>
      simp only [natToDigitsAux, if_neg h]
      rw [natToDigitsAux_acc]
      simp

/-! ### 10-smooth denominators -/

theorem dvd_ten_pow_self : ∀ d : Nat, ∀ N : Nat, 0 < d → d ∣ 10 ^ N → d ∣ 10 ^ d := by
  intro d
  induction d using Nat.strong_induction_on with
  | _ d ih =>
    intro N hd h
    by_cases hd1 : d = 1
    · subst hd1; exact one_dvd _
    · have hN : N ≠ 0 := by
        rintro rfl
        exact hd1 (Nat.dvd_one.mp (by simpa using h))
      obtain ⟨p, hp, hpd⟩ := Nat.exists_prime_and_dvd hd1
      have hp10 : p ∣ 10 := hp.dvd_of_dvd_pow (hpd.trans h)
      have hgd : Nat.gcd d 10 ∣ d := Nat.gcd_dvd_left _ _
      have hg10 : Nat.gcd d 10 ∣ 10 := Nat.gcd_dvd_right _ _
      have hpg : p ∣ Nat.gcd d 10 := Nat.dvd_gcd hpd hp10
      have hgpos : 0 < Nat.gcd d 10 := Nat.gcd_pos_of_pos_left _ hd
      have hg1 : 1 < Nat.gcd d 10 := lt_of_lt_of_le hp.one_lt (Nat.le_of_dvd hgpos hpg)
      have hdd : d = Nat.gcd d 10 * (d / Nat.gcd d 10) := (Nat.mul_div_cancel' hgd).symm
      have hd'pos : 0 < d / Nat.gcd d 10 :=
        Nat.div_pos (Nat.le_of_dvd hd hgd) hgpos
      have hd'lt : d / Nat.gcd d 10 < d := Nat.div_lt_self hd hg1
      have hpowN : 10 * 10 ^ (N - 1) = 10 ^ N := by
        rw [← pow_succ']
        congr 1
        omega
      have hdvd1 : d / Nat.gcd d 10 ∣ 10 / Nat.gcd d 10 * 10 ^ (N - 1) := by
        have h2 : Nat.gcd d 10 * (d / Nat.gcd d 10) ∣
            Nat.gcd d 10 * (10 / Nat.gcd d 10 * 10 ^ (N - 1)) := by
          rw [← hdd, ← Nat.mul_assoc, Nat.mul_div_cancel' hg10, hpowN]
          exact h
        exact (Nat.mul_dvd_mul_iff_left hgpos).mp h2
      have hdvd2 : d / Nat.gcd d 10 ∣ 10 ^ N := by
        refine hdvd1.trans ?_
        rw [← hpowN]
        exact Nat.mul_dvd_mul (Nat.div_dvd_of_dvd hg10) dvd_rfl
      have ihd : d / Nat.gcd d 10 ∣ 10 ^ (d / Nat.gcd d 10) :=
        ih _ hd'lt N hd'pos hdvd2
      have hstep : d ∣ 10 ^ (d / Nat.gcd d 10 + 1) := by
        calc d = Nat.gcd d 10 * (d / Nat.gcd d 10) := hdd
        _ ∣ 10 * 10 ^ (d / Nat.gcd d 10) := Nat.mul_dvd_mul hg10 ihd
        _ = 10 ^ (d / Nat.gcd d 10 + 1) := (pow_succ' 10 _).symm
      exact hstep.trans (pow_dvd_pow 10 (by omega))

theorem findPow_dvd (d : Nat) (hd : 0 < d) (h : ∃ N, d ∣ 10 ^ N) :
    d ∣ 10 ^ findPow d := by
  obtain ⟨N, hN⟩ := h
  have hdd : d ∣ 10 ^ d := dvd_ten_pow_self d N hd hN
  rcases hf : (List.range (d + 1)).find? (fun j => 10 ^ j % d == 0) with _ | j
  · exfalso
    have hmem : d ∈ List.range (d + 1) := by simp
    have hnot := List.find?_eq_none.mp hf d hmem
    have hmod : 10 ^ d % d = 0 := Nat.dvd_iff_mod_eq_zero.mp hdd
    exact hnot (by simp [hmod])
  · have hpj : (10 ^ j % d == 0) = true :=
      List.find?_some (p := fun j => 10 ^ j % d == 0) hf
    have hmod : 10 ^ j % d = 0 := by simpa using hpj
    have hdj : d ∣ 10 ^ j := Nat.dvd_iff_mod_eq_zero.mpr hmod
    simpa [findPow, hf] using hdj

/-! ### Denominators of parsed values are 10-smooth -/

theorem decValue_den_dvd (m fl : Nat) (e : Int) :
    ∃ N, ((decValue m fl e).den : Nat) ∣ 10 ^ N := by
  unfold decValue
  by_cases h : (0 : Int) ≤ e
  · rw [if_pos h]
    refine ⟨fl, ?_⟩
    rw [Rat.mkRat_eq_divInt]
    have h1 := Rat.den_dvd ((m * 10 ^ e.toNat : Nat) : ℤ) ((10 ^ fl : Nat) : ℤ)
    exact_mod_cast h1
  · rw [if_neg h]
    refine ⟨fl + (-e).toNat, ?_⟩
    rw [Rat.mkRat_eq_divInt]
    have h1 := Rat.den_dvd ((m : Nat) : ℤ) ((10 ^ (fl + (-e).toNat) : Nat) : ℤ)
    exact_mod_cast h1

theorem parseDec_den_dvd (cs : List Char) (q : ℚ) (h : parseDec cs = some q) :
    ∃ N, (q.den : Nat) ∣ 10 ^ N := by
  simp only [parseDec] at h
  split at h
  · exact absurd h (by simp)
  · simp only [parseDec.parseMant] at h
    split at h
    · have hq : q = decValue
          (natOfDigits ((cs.takeWhile (fun c => c ≠ 'e' && c ≠ 'E')).takeWhile
              (fun c => c ≠ '.') ++
            parseDec.dotFrac ((cs.takeWhile (fun c => c ≠ 'e' && c ≠ 'E')).dropWhile
              (fun c => c ≠ '.'))))
          (parseDec.dotFrac ((cs.takeWhile (fun c => c ≠ 'e' && c ≠ 'E')).dropWhile
            (fun c => c ≠ '.'))).length _ := (Option.some.inj h).symm
      rw [hq]
      exact decValue_den_dvd _ _ _
    · exact absurd h (by simp)

theorem pyFloatCore_finite_den (neg : Bool) (rest : List Char) (q : ℚ)
    (h : pyFloatCore neg rest = some (PyFloat.finite q)) :
    ∃ N, (q.den : Nat) ∣ 10 ^ N := by
  unfold pyFloatCore at h
  split at h
  · simp at h
  · split at h
    · simp at h
    · split at h
      · rcases hq : parseDec (rest.filter (fun c => c ≠ '_')) with _ | qv
        · rw [hq] at h; simp at h
        · rw [hq] at h
          have hv : (if neg then -qv else qv) = q := by
            have := Option.some.inj h
            exact PyFloat.finite.inj this
          obtain ⟨N, hN⟩ := parseDec_den_dvd _ qv hq
          refine ⟨N, ?_⟩
          rw [← hv]
          cases neg
          · simpa using hN
          · simpa [Rat.neg_den] using hN
      · simp at h

theorem parse_float_finite_den (x : Option String) (q : ℚ)
    (h : parse_float x = some (PyFloat.finite q)) :
    ∃ N, (q.den : Nat) ∣ 10 ^ N := by
  cases x with
  | none => simp [parse_float] at h
  | some v =>
    simp only [parse_float] at h
    split at h
    · simp at h
    · simp only [pyFloatOfString] at h
      exact pyFloatCore_finite_den _ _ q h

/-! ### Generic list scanning helpers -/

theorem stripList_of_all_nonws (l : List Char) (h : ∀ c ∈ l, isPyWs c = false) :
    stripList l = l := by
  have hleft : ∀ (m : List Char), (∀ c ∈ m, isPyWs c = false) →
      List.dropWhile isPyWs m = m := by
    intro m hm
    cases m with
    | nil => rfl
    | cons a r => exact List.dropWhile_cons_of_neg (by simp [hm a (by simp)])
  unfold stripList stripLeft stripRight
  rw [hleft l h, hleft l.reverse (fun c hc => h c (List.mem_reverse.mp hc)),
    List.reverse_reverse]

theorem takeWhile_all {p : Char → Bool} (l : List Char) (h : ∀ c ∈ l, p c = true) :
    l.takeWhile p = l := by
  induction l with
  | nil => rfl
  | cons a r ih =>
    rw [List.takeWhile_cons_of_pos (h a (by simp)), ih (fun c hc => h c (by simp [hc]))]

theorem dropWhile_all {p : Char → Bool} (l : List Char) (h : ∀ c ∈ l, p c = true) :
    l.dropWhile p = [] := by
  induction l with
  | nil => rfl
  | cons a r ih =>
    rw [List.dropWhile_cons_of_pos (h a (by simp))]
    exact ih (fun c hc => h c (by simp [hc]))

theorem takeWhile_append_stop {p : Char → Bool} (l r : List Char) (x : Char)
    (hl : ∀ c ∈ l, p c = true) (hx : p x = false) :
    (l ++ x :: r).takeWhile p = l ∧ (l ++ x :: r).dropWhile p = x :: r := by
  induction l with
  | nil =>
    constructor
    · exact List.takeWhile_cons_of_neg (by simp [hx])
    · exact List.dropWhile_cons_of_neg (by simp [hx])
  | cons a l' ih =>
    obtain ⟨h1, h2⟩ := ih (fun c hc => hl c (by simp [hc]))
    constructor
    · rw [List.cons_append, List.takeWhile_cons_of_pos (hl a (by simp)), h1]
    · rw [List.cons_append, List.dropWhile_cons_of_pos (hl a (by simp)), h2]

theorem okU_no_underscore (l : List Char) (h : ∀ c ∈ l, c ≠ '_') :
    ∀ prev, okU prev l = true := by
  induction l with
  | nil => intro prev; rfl
  | cons c r ih =>
    intro prev
    simp only [okU]
    rw [if_neg (h c (by simp))]
    exact ih (fun c2 hc2 => h c2 (by simp [hc2])) c

theorem filter_no_char (l : List Char) (ch : Char) (h : ∀ c ∈ l, c ≠ ch) :
    l.filter (fun c => c ≠ ch) = l :=
  List.filter_eq_self.mpr (by intro a ha; simpa using h a ha)

theorem isDig_toNat {c : Char} (h : isDig c = true) :
    48 ≤ c.toNat ∧ c.toNat ≤ 57 := by
  simpa [isDig] using h

theorem isDig_ne {c : Char} (hd : isDig c = true) (x : Char)
    (hx : x.toNat < 48 ∨ 57 < x.toNat) : c ≠ x := by
  intro h
  obtain ⟨h1, h2⟩ := isDig_toNat hd
  subst h
  omega

theorem isDig_nonws {c : Char} (hd : isDig c = true) : isPyWs c = false := by
  obtain ⟨h1, h2⟩ := isDig_toNat hd
  simp only [isPyWs]
  simp only [Bool.or_eq_false_iff, decide_eq_false_iff_not]
  omega

/-! ### Parsing a rendered decimal -/

theorem parseDec_decimal (ip fp : List Char)
    (hip : ∀ c ∈ ip, isDig c = true) (hfp : ∀ c ∈ fp, isDig c = true)
    (hipne : ip ≠ []) :
    parseDec (ip ++ '.' :: fp) =
      some (decValue (natOfDigits (ip ++ fp)) fp.length 0) := by
  have hpe : ∀ c ∈ ip ++ '.' :: fp, ((c ≠ 'e' : Bool) && (c ≠ 'E' : Bool)) = true := by
    intro c hc
    rcases List.mem_append.mp hc with h1 | h1
    · have hd := hip c h1
      simp [isDig_ne hd 'e' (by decide), isDig_ne hd 'E' (by decide)]
    · rcases List.mem_cons.mp h1 with rfl | h2
      · decide
      · have hd := hfp c h2
        simp [isDig_ne hd 'e' (by decide), isDig_ne hd 'E' (by decide)]
  have hdotl : ∀ c ∈ ip, ((c ≠ '.' : Bool)) = true := by
    intro c hc
    simp [isDig_ne (hip c hc) '.' (by decide)]
  obtain ⟨htake, hdrop⟩ := takeWhile_append_stop ip fp '.' hdotl (by simp)
  simp only [parseDec]
  rw [takeWhile_all _ hpe, dropWhile_all _ hpe]
  show parseDec.parseMant (ip ++ '.' :: fp) 0 = _
  simp only [parseDec.parseMant]
  rw [htake, hdrop]
  simp only [parseDec.dotFrac]
  rw [if_pos ⟨List.all_eq_true.mpr hip, List.all_eq_true.mpr hfp, by simp [hipne]⟩]

theorem pyFloatCore_decimal (neg : Bool) (ip fp : List Char)
    (hip : ∀ c ∈ ip, isDig c = true) (hfp : ∀ c ∈ fp, isDig c = true)
    (hipne : ip ≠ []) :
    pyFloatCore neg (ip ++ '.' :: fp) =
      some (PyFloat.finite
        (if neg then -(decValue (natOfDigits (ip ++ fp)) fp.length 0)
         else decValue (natOfDigits (ip ++ fp)) fp.length 0)) := by
  have hdot : '.' ∈ (ip ++ '.' :: fp).map Char.toLower :=
    List.mem_map.mpr ⟨'.', List.mem_append_right _ (List.mem_cons_self _ _), by decide⟩
  have hne1 : ¬((ip ++ '.' :: fp).map Char.toLower = "inf".data ∨
      (ip ++ '.' :: fp).map Char.toLower = "infinity".data) := by
    rintro (h | h) <;> rw [h] at hdot <;> exact absurd hdot (by decide)
  have hne2 : ¬(ip ++ '.' :: fp).map Char.toLower = "nan".data := by
    intro h; rw [h] at hdot; exact absurd hdot (by decide)
  have hnous : ∀ c ∈ ip ++ '.' :: fp, c ≠ '_' := by
    intro c hc
    rcases List.mem_append.mp hc with h1 | h1
    · exact isDig_ne (hip c h1) '_' (by decide)
    · rcases List.mem_cons.mp h1 with rfl | h2
      · decide
      · exact isDig_ne (hfp c h2) '_' (by decide)
  unfold pyFloatCore
  rw [if_neg hne1, if_neg hne2,
    if_pos (show okUnderscores (ip ++ '.' :: fp) = true from okU_no_underscore _ hnous ' '),
    filter_no_char _ '_' hnous, parseDec_decimal ip fp hip hfp hipne]

theorem pyFloatOfString_of_data (s : String) (sign : Bool) (ip fp : List Char)
    (hdata : s.data = (if sign then ['-'] else []) ++ ip ++ '.' :: fp)
    (hip : ∀ c ∈ ip, isDig c = true) (hfp : ∀ c ∈ fp, isDig c = true)
    (hipne : ip ≠ []) :
    pyFloatOfString s =
      some (PyFloat.finite
        (if sign then -(decValue (natOfDigits (ip ++ fp)) fp.length 0)
         else decValue (natOfDigits (ip ++ fp)) fp.length 0)) := by
  have hnonws : ∀ c ∈ (if sign then ['-'] else []) ++ ip ++ '.' :: fp,
      isPyWs c = false := by
    intro c hc
    rcases List.mem_append.mp hc with h1 | h1
    · rcases List.mem_append.mp h1 with h2 | h2
      · cases sign
        · simp at h2
        · have : c = '-' := by simpa using h2
          subst this; decide
      · exact isDig_nonws (hip c h2)
    · rcases List.mem_cons.mp h1 with rfl | h3
      · decide
      · exact isDig_nonws (hfp c h3)
  have hsign : splitSign ((if sign then ['-'] else []) ++ ip ++ '.' :: fp) =
      (sign, ip ++ '.' :: fp) := by
    cases sign
    · obtain ⟨d, ip', hip'⟩ := List.exists_cons_of_ne_nil hipne
      subst hip'
      have h1 : d ≠ '+' := isDig_ne (hip d (by simp)) '+' (by decide)
      have h2 : d ≠ '-' := isDig_ne (hip d (by simp)) '-' (by decide)
      simp [splitSign, h1, h2]
    · simp [splitSign]
  show pyFloatCore (splitSign (stripList s.data)).1 (splitSign (stripList s.data)).2 = _
  rw [hdata, stripList_of_all_nonws _ hnonws, hsign]
  exact pyFloatCore_decimal sign ip fp hip hfp hipne

theorem dot_not_sentinel (u : String) (hmem : '.' ∈ u.data) :
    u ∉ sentinelStrings := by
  intro hu
  have h4 : u = "" ∨ u = "-" ∨ u = "NaN" ∨ u = "nan" := by
    simpa [sentinelStrings] using hu
  rcases h4 with rfl | rfl | rfl | rfl <;> exact absurd hmem (by decide)

theorem parse_float_renderDec (sign : Bool) (ip fp : List Char)
    (hip : ∀ c ∈ ip, isDig c = true) (hfp : ∀ c ∈ fp, isDig c = true)
    (hipne : ip ≠ []) :
    parse_float (some (renderDec sign ip fp)) =
      some (PyFloat.finite
        (if sign then -(decValue (natOfDigits (ip ++ fp)) fp.length 0)
         else decValue (natOfDigits (ip ++ fp)) fp.length 0)) := by
  have hnonws : ∀ c ∈ (if sign then ['-'] else []) ++ ip ++ '.' :: fp,
      isPyWs c = false := by
    intro c hc
    rcases List.mem_append.mp hc with h1 | h1
    · rcases List.mem_append.mp h1 with h2 | h2
      · cases sign
        · simp at h2
        · have : c = '-' := by simpa using h2
          subst this; decide
      · exact isDig_nonws (hip c h2)
    · rcases List.mem_cons.mp h1 with rfl | h3
      · decide
      · exact isDig_nonws (hfp c h3)
  have hstrip : stripList (renderDec sign ip fp).data =
      (if sign then ['-'] else []) ++ ip ++ '.' :: fp := by
    rw [show (renderDec sign ip fp).data =
      (if sign then ['-'] else []) ++ ip ++ '.' :: fp from rfl]
    exact stripList_of_all_nonws _ hnonws
  have hdotmem : '.' ∈ (pyStrip (renderDec sign ip fp)).data := by
    show '.' ∈ stripList (renderDec sign ip fp).data
    rw [hstrip]
    exact List.mem_append_right _ (List.mem_cons_self _ _)
  have hsent : pyStrip (renderDec sign ip fp) ∉ sentinelStrings :=
    dot_not_sentinel _ hdotmem
  have hnocomma : ∀ c ∈ (pyStrip (renderDec sign ip fp)).data, c ≠ ',' := by
    intro c hc
    have hc2 : c ∈ (if sign then ['-'] else []) ++ ip ++ '.' :: fp := by
      rw [show (pyStrip (renderDec sign ip fp)).data =
        stripList (renderDec sign ip fp).data from rfl, hstrip] at hc
      exact hc
    rcases List.mem_append.mp hc2 with h1 | h1
    · rcases List.mem_append.mp h1 with h2 | h2
      · cases sign
        · simp at h2
        · have : c = '-' := by simpa using h2
          subst this; decide
      · exact isDig_ne (hip c h2) ',' (by decide)
    · rcases List.mem_cons.mp h1 with rfl | h3
      · decide
      · exact isDig_ne (hfp c h3) ',' (by decide)
  simp only [parse_float, if_neg hsent]
  rw [filter_no_char _ ',' hnocomma]
  exact pyFloatOfString_of_data _ sign ip fp
    (by rw [show (String.mk (pyStrip (renderDec sign ip fp)).data).data =
      stripList (renderDec sign ip fp).data from rfl]; exact hstrip)
    hip hfp hipne

/-! ### The rendered value re-parses to the original rational -/

theorem mkRat_nat_div (a b : Nat) : mkRat (a : Int) b = (a : ℚ) / (b : ℚ) := by
  rw [Rat.mkRat_eq_divInt, Rat.divInt_eq_div]
  push_cast
  ring

theorem decValue_zero_div (m fl : Nat) :
    decValue m fl 0 = (m : ℚ) / (10 : ℚ) ^ fl := by
  unfold decValue
  rw [if_pos (le_refl (0 : Int))]
  have h1 : (0 : Int).toNat = 0 := rfl
  simp only [h1, pow_zero, mul_one]
  rw [mkRat_nat_div]
  push_cast
  ring

theorem sign_abs_div (q v : ℚ)
    (hv : v = (q.num.natAbs : ℚ) / (q.den : ℚ)) :
    (if decide (q < 0) then -v else v) = q := by
  have habs : ((q.num.natAbs : ℕ) : ℚ) = |(q.num : ℚ)| := by
    push_cast [Int.cast_natAbs]
    ring
  by_cases hq : q < 0
  · have hnum : q.num < 0 := by
      by_contra hc
      exact absurd (Rat.num_nonneg.mp (not_lt.mp hc)) (not_le.mpr hq)
    rw [if_pos (decide_eq_true hq), hv, habs,
      abs_of_neg (show (q.num : ℚ) < 0 from by exact_mod_cast hnum),
      neg_div, neg_neg]
    exact Rat.num_div_den q
  · have hnum : (0 : ℤ) ≤ q.num := Rat.num_nonneg.mpr (not_lt.mp hq)
    rw [if_neg (by simpa using hq), hv, habs,
      abs_of_nonneg (show (0 : ℚ) ≤ (q.num : ℚ) from by exact_mod_cast hnum)]
    exact Rat.num_div_den q

theorem ratRepr_roundTrip (q : ℚ) (hden : ∃ N, (q.den : Nat) ∣ 10 ^ N) :
    parse_float (some (ratRepr q)) = some (PyFloat.finite q) := by
  have hdk : q.den ∣ 10 ^ findPow q.den := findPow_dvd q.den q.den_pos hden
  by_cases hk : findPow q.den = 0
  · have hden1 : q.den = 1 := by
      rw [hk] at hdk
      simpa using hdk
    rw [show ratRepr q = renderDec (decide (q < 0))
        (natToDigits (q.num.natAbs * 10 ^ findPow q.den / q.den)) ['0'] from by
      simp only [ratRepr, if_pos hk]]
    rw [parse_float_renderDec _ _ _ (natToDigits_digits _) (by decide)
      (natToDigits_ne_nil _)]
    congr 1
    congr 1
    apply sign_abs_div
    rw [natOfDigits_append, natToDigits_val,
      show natOfDigits ['0'] = 0 from by decide,
      show (['0'] : List Char).length = 1 from rfl, decValue_zero_div, hk, hden1]
    push_cast
    ring_nf
    norm_num
  · have hPval : natOfDigits (ratRepr.padded q) =
        q.num.natAbs * 10 ^ findPow q.den / q.den := by
      unfold ratRepr.padded
      rw [natOfDigits_replicate_zero, natToDigits_val]
    have hPdig : ∀ c ∈ ratRepr.padded q, isDig c = true := by
      intro c hc
      unfold ratRepr.padded at hc
      rcases List.mem_append.mp hc with h1 | h1
      · rw [List.eq_of_mem_replicate h1]; decide
      · exact natToDigits_digits _ c h1
    have hPlen : findPow q.den + 1 ≤ (ratRepr.padded q).length := by
      unfold ratRepr.padded
      rw [List.length_append, List.length_replicate]
      omega
    have hiplen : (((ratRepr.padded q).take
        ((ratRepr.padded q).length - findPow q.den))).length =
        (ratRepr.padded q).length - findPow q.den := by
      rw [List.length_take]
      omega
    have hipne : (ratRepr.padded q).take
        ((ratRepr.padded q).length - findPow q.den) ≠ [] := by
      intro h
      have := congrArg List.length h
      rw [hiplen] at this
      simp at this
      omega
    have hfplen : (((ratRepr.padded q).drop
        ((ratRepr.padded q).length - findPow q.den))).length = findPow q.den := by
      rw [List.length_drop]
      omega
    rw [show ratRepr q = renderDec (decide (q < 0))
        ((ratRepr.padded q).take ((ratRepr.padded q).length - findPow q.den))
        ((ratRepr.padded q).drop ((ratRepr.padded q).length - findPow q.den)) from by
      simp only [ratRepr, if_neg hk]]
    rw [parse_float_renderDec _ _ _
      (fun c hc => hPdig c (List.mem_of_mem_take hc))
      (fun c hc => hPdig c (List.mem_of_mem_drop hc)) hipne]
    congr 1
    congr 1
    apply sign_abs_div
    rw [List.take_append_drop, hPval, hfplen, decValue_zero_div]
    have hdvd : q.den ∣ q.num.natAbs * 10 ^ findPow q.den := Dvd.dvd.mul_left hdk _
    rw [Nat.cast_div hdvd (by exact_mod_cast q.den_nz)]
    push_cast
    rw [div_div]
    rw [mul_comm ((q.den : ℚ)) _]
    rw [← div_div]
    congr 1
    exact mul_div_cancel_right₀ _ (by positivity)

/-! ### Claim C8 (corrected) -/

/-- C8 counterexample: `parse_float "NAN"` is not `None` (it is the float
NaN), but `str(nan) = "nan"` is one of the sentinels, so re-parsing the
printed value yields `None` — the round trip fails on NaN output. -/
theorem c8_counterexample :
    parse_float (some "NAN") = some PyFloat.nan ∧
    parse_float (some (pyStr PyFloat.nan)) = none ∧
    parse_float (some (pyStr PyFloat.nan)) ≠ parse_float (some "NAN") := by
  decide

/-- C8 (amended): `parse_float` is idempotent on its own non-NaN output:
whenever `parse_float x` is a finite or infinite float value `f`,
`parse_float (str f) = f` again; the lone exception forced by the
counterexample is NaN output (e.g. from input `"NAN"`), whose printed
form `"nan"` is a recognized sentinel and re-parses to `None`. -/
theorem c8_roundtrip (x : Option String) (f : PyFloat)
    (hx : parse_float x = some f) (hnan : f ≠ PyFloat.nan) :
    parse_float (some (pyStr f)) = some f := by
  cases f with
  | nan => exact absurd rfl hnan
  | inf b => cases b <;> decide
  | finite q => exact ratRepr_roundTrip q (parse_float_finite_den x q hx)

/-- C8 witness: the round trip at the concrete parse of `"1,234.5"`. -/
theorem c8_witness :
    parse_float (some (pyStr (PyFloat.finite (1234.5 : ℚ)))) =
      some (PyFloat.finite (1234.5 : ℚ)) :=
  c8_roundtrip (some "1,234.5") (PyFloat.finite (1234.5 : ℚ))
    (by simp only [ofSci_eq]; decide) (fun h => nomatch h)

/-- C3 witness: two tickers give two rows in order with upper-cased
ticker columns, and the CLI normalization produces a trimmed upper-cased
entry. -/
theorem c3_witness :
    ((collect_quote_features "n" ["aapl", "MSFT"] (fun _ _ => none)).get? 0).map
        (fun r => r.lookup "ticker") = some (some (Cell.ofStr (some "AAPL"))) ∧
    ((collect_quote_features "n" ["aapl", "MSFT"] (fun _ _ => none)).get? 1).map
        (fun r => r.lookup "ticker") = some (some (Cell.ofStr (some "MSFT"))) ∧
    (collect_quote_features "n" ["aapl", "MSFT"] (fun _ _ => none)).length = 2 ∧
    (∃ u ∈ splitComma " aapl ,MSFT", pyStrip u ≠ "" ∧ "AAPL" = pyUpper (pyStrip u)) :=
  ⟨((c3_collect_order_and_upper "n" ["aapl", "MSFT"] (fun _ _ => none)).2.1 0).trans
      (by decide),
   ((c3_collect_order_and_upper "n" ["aapl", "MSFT"] (fun _ _ => none)).2.1 1).trans
      (by decide),
   (c3_collect_order_and_upper "n" ["aapl", "MSFT"] (fun _ _ => none)).1,
   (c3_collect_order_and_upper "n" ["aapl", "MSFT"] (fun _ _ => none)).2.2
     " aapl ,MSFT" "AAPL" (by decide)⟩
